import Mathlib

/-!
Shallow embedding of the evolutionary auto-scheduling core of CINN
(`cinn/auto_schedule/search_strategy/evolutionary_search.cc`) and proofs about it.

The IR expression type (`ir::Expr`) is treated as an opaque value type; the
random engine, the bounded multiset, the search space and the database are
consumed through interfaces, so they are modelled from the spec where their
implementation is not part of the sources, and marked as such in doc comments.
-/

namespace CINN

/-- Opaque model of `ir::Expr`: an expression is an opaque structural value;
two expressions are equal iff they are structurally identical. -/
abbrev Expr := Nat

/-- Modelled from the spec: `deep_copy(ir) → ir` (`optim::IRCopy`, whose
implementation is not under src/). A deep copy is value-identical to the
original. -/
def IRCopy (e : Expr) : Expr := e

/-- Modelled from the spec: multiplier/modulus of the "deterministic
linear-congruential PRNG" (`utils::LinearRandomEngine`, not under src/);
the classic minstd constants. -/
def lcgModulus : Nat := 2147483647

/-- Modelled from the spec: one step of the linear-congruential engine. -/
def lcgNext (s : Nat) : Nat := (s * 48271) % lcgModulus

/-- Modelled from the spec: `normalize(seed) → state` of the random engine
(`utils::LinearRandomEngine::NormalizeState`, not under src/): the state is
reduced modulo the modulus and a zero state is replaced by one. -/
def NormalizeState (s : Nat) : Nat :=
  if s % lcgModulus = 0 then 1 else s % lcgModulus

/-- Modelled from the spec: how one raw engine output is mapped into the
half-open interval `[lo, hi)` by `sample_uniform_int(lo, hi_excl, &state)`. -/
def uniformIntOfOutput (lo hi r : Nat) : Nat := lo + r % (hi - lo)

/-- Modelled from the spec: `sample_uniform_int(lo, hi_excl, &state)`
(`utils::SampleUniformInt`, not under src/): draw one engine output, map it
into `[lo, hi)`, and advance the state.  The upper bound is exclusive per the
spec signature `sample_uniform_int(lo, hi_excl, &state)` and per the use of
the result as a vector index in `EvolutionarySearch::Evolve`. -/
def SampleUniformInt (lo hi : Nat) (s : Nat) : Nat × Nat :=
  (uniformIntOfOutput lo hi (lcgNext s), lcgNext s)

/-- Modelled from the spec: `fork(&state) → state'` (`utils::ForkRandomState`,
not under src/): "Forking draws one value from `state` to seed `state'`".
Returns `(forked child state, advanced parent state)`. -/
def ForkRandomState (s : Nat) : Nat × Nat := (lcgNext s, lcgNext s)

/-- Embedding of `SearchState`: the module's top-level expressions
(`ir_schedule.GetModule().GetExprs()`), the PRNG state carried by the
schedule, and the predicted cost (the unscored "NaN" cost of a freshly
built state is modelled by `0`; no claim compares costs of unscored
states). -/
structure SearchState where
  exprs : List Expr
  randState : Nat
  cost : Int
deriving DecidableEq, Repr, Inhabited

/-- The structural IR fingerprint that defines `SearchState` equality and
hashing per the spec: the scheduled module expressions themselves. -/
def fingerprint (s : SearchState) : List Expr := s.exprs

/-! ## CrossOver (evolutionary_search.cc lines 108–127) -/

/-- The die tossed once per expression position in
`EvolutionarySearch::CrossOver`: `utils::SampleUniformInt(0, 2, &rand_seed_)`. -/
def crossOverDie (s : Nat) : Nat := (SampleUniformInt 0 2 s).1

/-- The value of the `i`-th crossover die toss when the loop starts from
engine state `s` (each toss advances the state once). -/
def nthDraw (s i : Nat) : Nat := (lcgNext^[i + 1] s) % 2

/-- The loop of `CrossOver` (lines 117–123): for each position draw the die;
on `0` push a deep copy of the father's expression, otherwise a deep copy of
the mother's.  Returns the child expressions and the advanced engine state. -/
def crossOverLoop : List Expr → List Expr → Nat → List Expr × Nat
  | [], _, s => ([], s)
  | _ :: _, [], s => ([], s)
  | f :: fs, m :: ms, s =>
    let d := SampleUniformInt 0 2 s
    let rest := crossOverLoop fs ms d.2
    if d.1 = 0 then (IRCopy f :: rest.1, rest.2) else (IRCopy m :: rest.1, rest.2)

/-- `EvolutionarySearch::CrossOver` (lines 108–127): `CHECK_EQ` on the
top-level expression counts (`none` models the fatal check failure), then the
per-position die loop, then a child `SearchState` carrying a PRNG forked from
the engine's own state.  Returns the child and the advanced engine state. -/
def CrossOver (s : Nat) (state1 state2 : SearchState) : Option (SearchState × Nat) :=
  if state1.exprs.length = state2.exprs.length then
    let t := crossOverLoop state1.exprs state2.exprs s
    let f := ForkRandomState t.2
    some ({ exprs := t.1, randState := f.1, cost := 0 }, f.2)
  else none

/-! ## The environment: external collaborators consumed through interfaces -/

/-- A database record as consumed by `GetTopKCandidatesFromDatabase`:
a stored trace (opaque) and its predicted cost. -/
structure DbRecord where
  trace : Nat
  predictedCost : Int
deriving DecidableEq, Repr

/-- Modelled from the spec: the outcome of `ir::ScheduleDesc::ReplayWithProto`
(schedule_desc.cc is not under src/).  Per spec §7.3 a stored trace may fail
to replay (`ReplayFailure`); either way a (possibly partially) scheduled IR
results. -/
inductive ReplayOutcome where
  | ok (ir : List Expr)
  | failed (ir : List Expr)
deriving DecidableEq, Repr

/-- The IR held by a replay outcome, successful or not. -/
def ReplayOutcome.resultIR : ReplayOutcome → List Expr
  | .ok ir => ir
  | .failed ir => ir

/-- The external collaborators of `EvolutionarySearch`, fixed for a run:
the database snapshot (`Database::GetTopK`), the task registry's seed module
expression, trace replay, the search space's sketch generator
(`SearchSpace::GenerateSketches`) and scored mutation
(`SearchSpace::GetScheduleMutate` with the cost model). All are deterministic
functions of their arguments. -/
structure SearchEnv where
  getTopK : String → Nat → List DbRecord
  initialModuleExpr : String → List Expr
  replay : Nat → List Expr → ReplayOutcome
  generateSketches : Nat → String → List SearchState
  scheduleMutate : SearchState → SearchState

/-! ## GetTopKCandidatesFromDatabase (lines 89–101) -/

/-- The loop of `GetTopKCandidatesFromDatabase` (lines 94–99): for each
record, build an `IRSchedule` from a deep copy of the task's seed module
expression with a forked PRNG state, replay the record's trace, and
unconditionally wrap the outcome with the record's predicted cost. -/
def replayRecords (env : SearchEnv) (task : String) :
    List DbRecord → Nat → List SearchState × Nat
  | [], s => ([], s)
  | r :: rs, s =>
    let f := ForkRandomState s
    let ir := (env.replay r.trace ((env.initialModuleExpr task).map IRCopy)).resultIR
    let st : SearchState := ⟨ir, f.1, r.predictedCost⟩
    let rest := replayRecords env task rs f.2
    (st :: rest.1, rest.2)

/-- `EvolutionarySearch::GetTopKCandidatesFromDatabase` (lines 89–101). -/
def GetTopKCandidatesFromDatabase (env : SearchEnv) (task : String)
    (topk : Nat) (s : Nat) : List SearchState × Nat :=
  replayRecords env task (env.getTopK task topk) s

/-- Whether a record's stored trace replays successfully against the task's
seed IR. -/
def replayOk (env : SearchEnv) (task : String) (r : DbRecord) : Bool :=
  match env.replay r.trace ((env.initialModuleExpr task).map IRCopy) with
  | .ok _ => true
  | .failed _ => false

/-! ## Evolve (lines 129–155) -/

/-- The resampling loop of `Evolve` (lines 142–145): draw a second index and
redraw while it equals the first.  The loop has no bound in the source; the
`fuel` argument makes the embedding total, with `none` meaning the loop ran
longer than any given bound (divergence when `none` for every fuel). -/
def sampleSecondIdx (first n : Nat) : Nat → Nat → Option (Nat × Nat)
  | _, 0 => none
  | s, fuel + 1 =>
    let t := SampleUniformInt 0 n s
    if t.1 = first then sampleSecondIdx first n t.2 fuel else some (t.1, t.2)

/-- The crossover loop of `Evolve` (lines 140–147): `cross_over_num` times,
sample two distinct indices uniformly from the original population and
append the crossover child. -/
def evolveCrossLoop (population : List SearchState) (n : Nat) :
    Nat → Nat → Nat → Option (List SearchState × Nat)
  | 0, s, _ => some ([], s)
  | count + 1, s, fuel =>
    let t1 := SampleUniformInt 0 n s
    match sampleSecondIdx t1.1 n t1.2 fuel with
    | none => none
    | some (second, s2) =>
      match CrossOver s2 (population.getD t1.1 default) (population.getD second default) with
      | none => none
      | some (child, s3) =>
        match evolveCrossLoop population n count s3 fuel with
        | none => none
        | some (rest, s4) => some (child :: rest, s4)

/-- Modelled from the spec: `utils::SizedMultiSet` (not under src/), the
size-K multiset keeping the K smallest-cost elements with stable ties —
insert a new element after all elements of no larger cost. -/
def sizedInsert (x : SearchState) : List SearchState → List SearchState
  | [] => [x]
  | y :: ys => if x.cost < y.cost then x :: y :: ys else y :: sizedInsert x ys

/-- Modelled from the spec: `SizedMultiSet::Push` — insert, then evict the
largest-cost element when the capacity is exceeded. -/
def sizedPush (capacity : Nat) (l : List SearchState) (x : SearchState) :
    List SearchState :=
  let l2 := sizedInsert x l
  if capacity < l2.length then l2.dropLast else l2

/-- Modelled from the spec: pushing a whole list through a `SizedMultiSet` of
the given capacity and extracting in ascending cost order. -/
def sizedMultiSetTopK (capacity : Nat) (xs : List SearchState) : List SearchState :=
  xs.foldl (sizedPush capacity) []

/-- `EvolutionarySearch::Evolve` (lines 129–155): early return on an empty
population, the crossover loop over the original population, then one scored
mutation per individual pushed through the bounded multiset. -/
def Evolve (env : SearchEnv) (population : List SearchState)
    (crossOverNum retNum : Nat) (s : Nat) (fuel : Nat) :
    Option (List SearchState × Nat) :=
  if population.length = 0 then some ([], s)
  else
    match evolveCrossLoop population population.length crossOverNum s fuel with
    | none => none
    | some (children, s2) =>
      let evolution := population ++ children
      let scored := evolution.map env.scheduleMutate
      some (sizedMultiSetTopK retNum scored, s2)

/-! ## PickNextGenerationEpsGreedy (lines 157–205) -/

/-- One round's selection loop (lines 169–193), with the candidate supplies
as lists and the `best_idx`/`rand_idx` cursors represented by consuming the
lists from the front.  `fuel` only bounds the iteration count; every call
site passes `bests.length + randoms.length`, which the loop never exceeds
because each iteration consumes one candidate or stops. -/
def pickLoopAux : Nat → List SearchState → List SearchState → Nat → Nat →
    List (List Expr) → List SearchState → List SearchState × List (List Expr)
  | 0, _, _, _, _, vis, res => (res, vis)
  | fuel + 1, bests, randoms, nb, num, vis, res =>
    if res.length < num then
      match bests, randoms with
      | b :: bs, rs =>
        if res.length < nb then
          if fingerprint b ∈ vis then pickLoopAux fuel bs rs nb num vis res
          else pickLoopAux fuel bs rs nb num (fingerprint b :: vis) (res ++ [b])
        else
          match rs with
          | r :: rs2 =>
            if fingerprint r ∈ vis then pickLoopAux fuel (b :: bs) rs2 nb num vis res
            else pickLoopAux fuel (b :: bs) rs2 nb num (fingerprint r :: vis) (res ++ [r])
          | [] =>
            if fingerprint b ∈ vis then pickLoopAux fuel bs [] nb num vis res
            else pickLoopAux fuel bs [] nb num (fingerprint b :: vis) (res ++ [b])
      | [], r :: rs2 =>
        if fingerprint r ∈ vis then pickLoopAux fuel [] rs2 nb num vis res
        else pickLoopAux fuel [] rs2 nb num (fingerprint r :: vis) (res ++ [r])
      | [], [] => (res, vis)
    else (res, vis)

/-- `EvolutionarySearch::PickNextGenerationEpsGreedy` (lines 157–205):
`num_rands = num * eps_greedy` truncated to an integer, `num_bests = num -
num_rands`, then the selection loop.  The member set `visited_candidates_`
is threaded explicitly; the function returns the picked states and the
updated visited set. -/
def PickNextGenerationEpsGreedy (vis : List (List Expr))
    (bests randoms : List SearchState) (num : Nat) (eps : ℚ) :
    List SearchState × List (List Expr) :=
  let numRands : Nat := (⌊(num : ℚ) * eps⌋).toNat
  let numBests : Nat := num - numRands
  pickLoopAux (bests.length + randoms.length) bests randoms numBests num vis []

/-! ## The search entry points (lines 39–87) -/

/-- The tuning options consumed by the entry points. -/
structure TuningOptions where
  evolution_pick_database_topk : Nat
  evolution_init_population_num : Nat
  evolution_cross_over_num : Nat
  num_samples_per_iteration : Nat
  evolution_eps_greedy : ℚ

/-- The mutable state of one `EvolutionarySearch` instance: the task key,
the engine state `rand_seed_` and the persistent `visited_candidates_` set
(as the list of visited fingerprints). -/
structure EvoState where
  task : String
  randSeed : Nat
  visited : List (List Expr)
deriving DecidableEq

/-- The constructor (lines 39–48): normalize the seed and fork once for the
search space (the forked value is owned by the `SearchSpace`, which the
environment models as pure functions). -/
def mkEvolutionarySearch (task : String) (seed : Nat) : EvoState :=
  let s0 := NormalizeState seed
  let f := ForkRandomState s0
  ⟨task, f.2, []⟩

/-- `EvolutionarySearch::SearchModuleExprBests` (lines 56–75): database
warm starts, then sketches for the remaining population budget, then
`Evolve`. -/
def SearchModuleExprBests (env : SearchEnv) (opts : TuningOptions)
    (task : String) (s : Nat) (fuel : Nat) : Option (List SearchState × Nat) :=
  let t := GetTopKCandidatesFromDatabase env task opts.evolution_pick_database_topk s
  let initNum := opts.evolution_init_population_num - t.1.length
  let initSketch := env.generateSketches initNum "rule_prune"
  let population := t.1 ++ initSketch
  Evolve env population opts.evolution_cross_over_num opts.num_samples_per_iteration t.2 fuel

/-- `EvolutionarySearch::SearchModuleExpr` (lines 52–54): element `[0]` of
`SearchModuleExprBests`; indexing an empty vector is undefined behaviour and
is modelled by `none`. -/
def SearchModuleExpr (env : SearchEnv) (opts : TuningOptions)
    (task : String) (s : Nat) (fuel : Nat) : Option (SearchState × Nat) :=
  match SearchModuleExprBests env opts task s fuel with
  | none => none
  | some ([], _) => none
  | some (b :: _, s2) => some (b, s2)

/-- `EvolutionarySearch::SearchModuleExprEpsGreedy` (lines 77–87). -/
def SearchModuleExprEpsGreedy (env : SearchEnv) (opts : TuningOptions)
    (e : EvoState) (fuel : Nat) : Option (List SearchState × EvoState) :=
  match SearchModuleExprBests env opts e.task e.randSeed fuel with
  | none => none
  | some (bests, s1) =>
    let randomNum := opts.evolution_init_population_num - opts.evolution_pick_database_topk
    let randoms := env.generateSketches randomNum "random_prune"
    let p := PickNextGenerationEpsGreedy e.visited bests randoms
      opts.num_samples_per_iteration opts.evolution_eps_greedy
    some (p.1, ⟨e.task, s1, p.2⟩)

/-! ## Spec-side selection description (claims C2/C4) and round threading -/

/-- The slot-filling discipline in the words of the spec / claim C2: take from
`supply`, in order, until `want` candidates are kept or the supply runs out,
skipping (and consuming) any candidate whose fingerprint is already visited;
kept candidates are recorded as visited.  Returns the kept candidates, the
updated visited set, and the unconsumed remainder of the supply. -/
def takeUnvisited : List (List Expr) → Nat → List SearchState →
    List SearchState × List (List Expr) × List SearchState
  | vis, _, [] => ([], vis, [])
  | vis, 0, x :: xs => ([], vis, x :: xs)
  | vis, w + 1, x :: xs =>
    if fingerprint x ∈ vis then takeUnvisited vis (w + 1) xs
    else
      let t := takeUnvisited (fingerprint x :: vis) w xs
      (x :: t.1, t.2.1, t.2.2)

/-- Follows the words of claim C2: the first `numBests` kept slots are drawn
from `bests` in order, the remainder from `randoms` in order, and if either
supply runs out the remaining slots are filled from the other supply (the
unconsumed remainder of `bests`). -/
def pickSpecPhases (vis : List (List Expr)) (bests randoms : List SearchState)
    (num numBests : Nat) : List SearchState :=
  let t1 := takeUnvisited vis numBests bests
  let t2 := takeUnvisited t1.2.1 (num - t1.1.length) randoms
  let t3 := takeUnvisited t2.2.1 (num - t1.1.length - t2.1.length) t1.2.2
  t1.1 ++ t2.1 ++ t3.1

/-- Like `pickSpecPhases` but also returning the final visited set, and
generalized over the number of candidates already kept (`len`), as needed to
characterize the selection loop from an arbitrary intermediate state. -/
def pickPhases (vis : List (List Expr)) (bests randoms : List SearchState)
    (nb num len : Nat) : List SearchState × List (List Expr) :=
  let t1 := takeUnvisited vis (nb - len) bests
  let t2 := takeUnvisited t1.2.1 (num - len - t1.1.length) randoms
  let t3 := takeUnvisited t2.2.1 (num - len - t1.1.length - t2.1.length) t1.2.2
  (t1.1 ++ t2.1 ++ t3.1, t3.2.1)

/-- The per-round inputs of one `PickNextGenerationEpsGreedy` call. -/
structure RoundInput where
  bests : List SearchState
  randoms : List SearchState
  num : Nat
  eps : ℚ

/-- A sequence of epsilon-greedy rounds of the same `EvolutionarySearch`
instance: the `visited_candidates_` set persists from round to round. -/
def runPickRounds : List RoundInput → List (List Expr) →
    List (List SearchState) × List (List Expr)
  | [], vis => ([], vis)
  | r :: rs, vis =>
    let p := PickNextGenerationEpsGreedy vis r.bests r.randoms r.num r.eps
    let rest := runPickRounds rs p.2
    (p.1 :: rest.1, rest.2)

/-- Follows the words of claim C7: a record whose stored trace fails to
replay is dropped from the warm-start list and the remaining records are
still returned — i.e. the warm starts are exactly the records that replay
successfully. -/
def replayFailuresAreDropped : Prop :=
  ∀ (env : SearchEnv) (task : String) (topk s : Nat),
    (GetTopKCandidatesFromDatabase env task topk s).1.length =
      ((env.getTopK task topk).filter (replayOk env task)).length

/-- A concrete environment with an empty database and empty sketch space,
used to instantiate universally quantified theorems. -/
def trivialEnv : SearchEnv where
  getTopK := fun _ _ => []
  initialModuleExpr := fun _ => []
  replay := fun _ ir => .ok ir
  generateSketches := fun _ _ => []
  scheduleMutate := fun s => s

/-- A concrete environment whose database holds one record and whose replay
always fails, exhibiting the behaviour of `GetTopKCandidatesFromDatabase` on
a replay failure. -/
def failingReplayEnv : SearchEnv where
  getTopK := fun _ _ => [⟨0, 0⟩]
  initialModuleExpr := fun _ => []
  replay := fun _ ir => .failed ir
  generateSketches := fun _ _ => []
  scheduleMutate := fun s => s

/-! ## Helper lemmas -/

/-- The crossover die can only show `0` or `1`: it is drawn from the
half-open interval `[0, 2)`. -/
lemma crossOverDie_lt_two (s : Nat) : crossOverDie s < 2 := by
  have h : lcgNext s % 2 < 2 := Nat.mod_lt _ (by omega)
  simp only [crossOverDie, SampleUniformInt, uniformIntOfOutput]
  omega

/-- Every expression of a crossover child comes from one of the two parents. -/
lemma crossOverLoop_mem : ∀ (f m : List Expr) (s : Nat) (e : Expr),
    e ∈ (crossOverLoop f m s).1 → e ∈ f ∨ e ∈ m
  | [], _, _, _ => by simp [crossOverLoop]
  | _ :: _, [], _, _ => by simp [crossOverLoop]
  | a :: fs, b :: ms, s, e => by
    simp only [crossOverLoop]
    split
    · intro he
      rcases List.mem_cons.mp he with h | h
      · exact Or.inl (by simp [IRCopy] at h; simp [h])
      · rcases crossOverLoop_mem fs ms _ e h with h2 | h2
        · exact Or.inl (List.mem_cons_of_mem _ h2)
        · exact Or.inr (List.mem_cons_of_mem _ h2)
    · intro he
      rcases List.mem_cons.mp he with h | h
      · exact Or.inr (by simp [IRCopy] at h; simp [h])
      · rcases crossOverLoop_mem fs ms _ e h with h2 | h2
        · exact Or.inl (List.mem_cons_of_mem _ h2)
        · exact Or.inr (List.mem_cons_of_mem _ h2)

/-- Position `i` of the crossover child is the father's expression exactly
when the `i`-th die toss is `0`, and the mother's otherwise. -/
lemma crossOverLoop_getElem : ∀ (f m : List Expr), f.length = m.length →
    ∀ (s i : Nat),
      (crossOverLoop f m s).1[i]? =
        if nthDraw s i = 0 then f[i]? else m[i]?
  | [], [], _, s, i => by simp [crossOverLoop]
  | [], _ :: _, h, _, _ => by simp at h
  | _ :: _, [], h, _, _ => by simp at h
  | a :: fs, b :: ms, h, s, i => by
    have hlen : fs.length = ms.length := by simpa using h
    match i with
    | 0 =>
      have hdraw : nthDraw s 0 = lcgNext s % 2 := by
        simp [nthDraw]
      simp only [crossOverLoop, SampleUniformInt, uniformIntOfOutput, hdraw]
      split <;> rename_i hcond <;>
        simp only [List.getElem?_cons_zero, IRCopy] <;>
        [skip; skip] <;> first
        | (rw [if_pos (by omega)])
        | (rw [if_neg (by omega)])
    | i + 1 =>
      have hiter : nthDraw s (i + 1) = nthDraw (lcgNext s) i := by
        simp [nthDraw, Function.iterate_succ_apply]
      simp only [crossOverLoop, SampleUniformInt, uniformIntOfOutput]
      split <;>
        simpa [hiter] using crossOverLoop_getElem fs ms hlen (lcgNext s) i

/-- With a single candidate index, the distinct-second-index loop of
`Evolve` never exits: `SampleUniformInt(0, 1)` always returns `0`. -/
lemma sampleSecondIdx_zero_one : ∀ (fuel s : Nat),
    sampleSecondIdx 0 1 s fuel = none
  | 0, _ => rfl
  | fuel + 1, s => by
    simp only [sampleSecondIdx, SampleUniformInt, uniformIntOfOutput,
      Nat.mod_one, Nat.add_zero, Nat.sub_zero]
    exact sampleSecondIdx_zero_one fuel (lcgNext s)

lemma takeUnvisited_nil (vis : List (List Expr)) (w : Nat) :
    takeUnvisited vis w [] = ([], vis, []) := by
  cases w <;> rfl

lemma takeUnvisited_zero (vis : List (List Expr)) :
    ∀ supply, takeUnvisited vis 0 supply = ([], vis, supply)
  | [] => rfl
  | _ :: _ => rfl

/-- The selection loop characterized in closed form: starting from any
visited set and any partial result, it performs the three slot-filling
phases (bests up to `nb` kept, then randoms up to the budget, then the
remaining bests). -/
lemma pickLoopAux_eq_phases : ∀ (fuel : Nat) (bests randoms : List SearchState)
    (nb num : Nat) (vis : List (List Expr)) (res : List SearchState),
    bests.length + randoms.length ≤ fuel → nb ≤ num →
    pickLoopAux fuel bests randoms nb num vis res =
      (res ++ (pickPhases vis bests randoms nb num res.length).1,
        (pickPhases vis bests randoms nb num res.length).2)
  | 0, bests, randoms, nb, num, vis, res, hfuel, hnb => by
    have hb : bests = [] := by
      cases bests
      · rfl
      · simp at hfuel
    have hr : randoms = [] := by
      cases randoms
      · rfl
      · rw [hb] at hfuel; simp at hfuel
    subst hb; subst hr
    simp [pickLoopAux, pickPhases, takeUnvisited_nil]
  | fuel + 1, bests, randoms, nb, num, vis, res, hfuel, hnb => by
    by_cases hnum : res.length < num
    · match bests, randoms with
      | [], [] =>
        simp [pickLoopAux, hnum, pickPhases, takeUnvisited_nil]
      | [], r :: rs2 =>
        have hf2 : ([] : List SearchState).length + rs2.length ≤ fuel := by
          simp at hfuel ⊢; omega
        obtain ⟨w, hw⟩ : ∃ w, num - res.length = w + 1 :=
          ⟨num - res.length - 1, by omega⟩
        by_cases hv : fingerprint r ∈ vis
        · rw [show pickLoopAux (fuel + 1) [] (r :: rs2) nb num vis res =
              pickLoopAux fuel [] rs2 nb num vis res by
            simp [pickLoopAux, hnum, hv]]
          rw [pickLoopAux_eq_phases fuel [] rs2 nb num vis res hf2 hnb]
          simp [pickPhases, takeUnvisited_nil, hw, takeUnvisited, hv]
        · rw [show pickLoopAux (fuel + 1) [] (r :: rs2) nb num vis res =
              pickLoopAux fuel [] rs2 nb num (fingerprint r :: vis)
                (res ++ [r]) by
            simp [pickLoopAux, hnum, hv]]
          rw [pickLoopAux_eq_phases fuel [] rs2 nb num (fingerprint r :: vis)
            (res ++ [r]) hf2 hnb]
          have harg : num - (res ++ [r]).length = w := by simp [hw]; omega
          simp only [pickPhases, takeUnvisited_nil, List.length_nil,
            Nat.sub_zero, hw, harg, takeUnvisited, hv, if_neg hv,
            List.length_cons, List.length_append, List.length_nil]
          have harg2 : ∀ a : Nat, num - res.length - (a + 1) =
              num - (res.length + 1) - a := by intro a; omega
          have hfix : num - (res.length + 1) = w := by omega
          simp [harg2, hfix]
      | b :: bs, rs =>
        by_cases hnb2 : res.length < nb
        · obtain ⟨w, hw⟩ : ∃ w, nb - res.length = w + 1 :=
            ⟨nb - res.length - 1, by omega⟩
          have hf2 : bs.length + rs.length ≤ fuel := by
            simp at hfuel ⊢; omega
          by_cases hv : fingerprint b ∈ vis
          · rw [show pickLoopAux (fuel + 1) (b :: bs) rs nb num vis res =
                pickLoopAux fuel bs rs nb num vis res by
              cases rs <;> simp [pickLoopAux, hnum, hnb2, hv]]
            rw [pickLoopAux_eq_phases fuel bs rs nb num vis res hf2 hnb]
            simp [pickPhases, hw, takeUnvisited, hv]
          · rw [show pickLoopAux (fuel + 1) (b :: bs) rs nb num vis res =
                pickLoopAux fuel bs rs nb num (fingerprint b :: vis)
                  (res ++ [b]) by
              cases rs <;> simp [pickLoopAux, hnum, hnb2, hv]]
            rw [pickLoopAux_eq_phases fuel bs rs nb num (fingerprint b :: vis)
              (res ++ [b]) hf2 hnb]
            have harg : nb - (res ++ [b]).length = w := by simp [hw]; omega
            simp only [pickPhases, hw, harg, takeUnvisited, if_neg hv,
              List.length_cons, List.length_append, List.length_nil]
            have harg2 : ∀ a : Nat, num - res.length - (a + 1) =
                num - (res.length + 1) - a := by intro a; omega
            have hfix : nb - (res.length + 1) = w := by omega
            simp [harg2, hfix]
        · -- res.length ≥ nb: the loop is in the randoms phase
          have ht1 : nb - res.length = 0 := by omega
          obtain ⟨w, hw⟩ : ∃ w, num - res.length = w + 1 :=
            ⟨num - res.length - 1, by omega⟩
          match rs with
          | r :: rs2 =>
            have hf2 : (b :: bs).length + rs2.length ≤ fuel := by
              simp at hfuel ⊢; omega
            by_cases hv : fingerprint r ∈ vis
            · rw [show pickLoopAux (fuel + 1) (b :: bs) (r :: rs2) nb num vis
                  res = pickLoopAux fuel (b :: bs) rs2 nb num vis res by
                simp [pickLoopAux, hnum, hnb2, hv]]
              rw [pickLoopAux_eq_phases fuel (b :: bs) rs2 nb num vis res hf2
                hnb]
              simp [pickPhases, ht1, takeUnvisited_zero, hw, takeUnvisited, hv]
            · rw [show pickLoopAux (fuel + 1) (b :: bs) (r :: rs2) nb num vis
                  res = pickLoopAux fuel (b :: bs) rs2 nb num
                    (fingerprint r :: vis) (res ++ [r]) by
                simp [pickLoopAux, hnum, hnb2, hv]]
              rw [pickLoopAux_eq_phases fuel (b :: bs) rs2 nb num
                (fingerprint r :: vis) (res ++ [r]) hf2 hnb]
              have ht1b : nb - (res ++ [r]).length = 0 := by simp; omega
              have harg : num - (res ++ [r]).length = w := by simp [hw]; omega
              simp only [pickPhases, ht1, ht1b, takeUnvisited_zero, hw, harg,
                takeUnvisited, if_neg hv, List.length_cons, List.length_nil,
                Nat.sub_zero, List.length_append]
              have harg2 : ∀ a : Nat, num - res.length - (a + 1) =
                  num - (res.length + 1) - a := by intro a; omega
              have hfix : num - (res.length + 1) = w := by omega
              have ht1c : nb - (res.length + 1) = 0 := by omega
              simp [harg2, hfix, ht1c, takeUnvisited_zero]
          | [] =>
            have hf2 : bs.length + ([] : List SearchState).length ≤ fuel := by
              simp at hfuel ⊢; omega
            by_cases hv : fingerprint b ∈ vis
            · rw [show pickLoopAux (fuel + 1) (b :: bs) [] nb num vis res =
                  pickLoopAux fuel bs [] nb num vis res by
                simp [pickLoopAux, hnum, hnb2, hv]]
              rw [pickLoopAux_eq_phases fuel bs [] nb num vis res hf2 hnb]
              have ht1b : nb - res.length = 0 := ht1
              simp [pickPhases, ht1, takeUnvisited_zero, takeUnvisited_nil,
                hw, takeUnvisited, hv]
            · rw [show pickLoopAux (fuel + 1) (b :: bs) [] nb num vis res =
                  pickLoopAux fuel bs [] nb num (fingerprint b :: vis)
                    (res ++ [b]) by
                simp [pickLoopAux, hnum, hnb2, hv]]
              rw [pickLoopAux_eq_phases fuel bs [] nb num (fingerprint b :: vis)
                (res ++ [b]) hf2 hnb]
              have ht1b : nb - (res ++ [b]).length = 0 := by simp; omega
              have harg : num - (res ++ [b]).length = w := by simp [hw]; omega
              simp only [pickPhases, ht1, ht1b, takeUnvisited_zero,
                takeUnvisited_nil, hw, harg, takeUnvisited, if_neg hv,
                List.length_cons, List.length_nil, Nat.sub_zero,
                List.length_append]
              have harg2 : ∀ a : Nat, num - res.length - (a + 1) =
                  num - (res.length + 1) - a := by intro a; omega
              have hfix : num - (res.length + 1) = w := by omega
              have ht1c : nb - (res.length + 1) = 0 := by omega
              simp [harg2, hfix, ht1c, takeUnvisited_zero, takeUnvisited_nil]
    · have h1 : nb - res.length = 0 := by omega
      have h2 : num - res.length = 0 := by omega
      simp [pickLoopAux, hnum, pickPhases, h1, h2, takeUnvisited_zero]

/-- Deduplication invariant of the selection loop: starting from a result
whose fingerprints are distinct and recorded in the visited set, the loop
keeps fingerprints distinct, records every returned state, extends the
visited set monotonically, and never returns an already-visited state. -/
lemma pickLoopAux_dedup : ∀ (fuel : Nat) (bests randoms : List SearchState)
    (nb num : Nat) (vis : List (List Expr)) (res : List SearchState),
    (res.map fingerprint).Nodup → (∀ s ∈ res, fingerprint s ∈ vis) →
    ((pickLoopAux fuel bests randoms nb num vis res).1.map fingerprint).Nodup ∧
      (∀ s ∈ (pickLoopAux fuel bests randoms nb num vis res).1,
        fingerprint s ∈ (pickLoopAux fuel bests randoms nb num vis res).2) ∧
      (∀ f ∈ vis, f ∈ (pickLoopAux fuel bests randoms nb num vis res).2) ∧
      (∀ s ∈ (pickLoopAux fuel bests randoms nb num vis res).1,
        s ∈ res ∨ fingerprint s ∉ vis)
  | 0, bests, randoms, nb, num, vis, res, hres, hmem => by
    simp only [pickLoopAux]
    exact ⟨hres, hmem, fun f hf => hf, fun s hs => Or.inl hs⟩
  | fuel + 1, bests, randoms, nb, num, vis, res, hres, hmem => by
    have keep : ∀ (x : SearchState) (b2 r2 : List SearchState),
        fingerprint x ∉ vis →
        (((pickLoopAux fuel b2 r2 nb num (fingerprint x :: vis)
            (res ++ [x])).1.map fingerprint).Nodup ∧
          (∀ s ∈ (pickLoopAux fuel b2 r2 nb num (fingerprint x :: vis)
              (res ++ [x])).1,
            fingerprint s ∈ (pickLoopAux fuel b2 r2 nb num
              (fingerprint x :: vis) (res ++ [x])).2) ∧
          (∀ f ∈ vis, f ∈ (pickLoopAux fuel b2 r2 nb num
            (fingerprint x :: vis) (res ++ [x])).2) ∧
          (∀ s ∈ (pickLoopAux fuel b2 r2 nb num (fingerprint x :: vis)
              (res ++ [x])).1,
            s ∈ res ∨ fingerprint s ∉ vis)) := by
      intro x b2 r2 hx
      have h1 : ((res ++ [x]).map fingerprint).Nodup := by
        rw [List.map_append]
        refine List.Nodup.append hres (by simp) ?_
        intro f hf1 hf2
        simp at hf2
        subst hf2
        obtain ⟨s, hs, hfs⟩ := List.mem_map.mp hf1
        exact hx (hfs ▸ hmem s hs)
      have h2 : ∀ s ∈ res ++ [x], fingerprint s ∈ fingerprint x :: vis := by
        intro s hs
        rcases List.mem_append.mp hs with h | h
        · exact List.mem_cons_of_mem _ (hmem s h)
        · simp at h; subst h; exact List.mem_cons_self _ _
      have ih := pickLoopAux_dedup fuel b2 r2 nb num (fingerprint x :: vis)
        (res ++ [x]) h1 h2
      refine ⟨ih.1, ih.2.1,
        fun f hf => ih.2.2.1 f (List.mem_cons_of_mem _ hf),
        fun s hs => ?_⟩
      rcases ih.2.2.2 s hs with h | h
      · rcases List.mem_append.mp h with h2b | h2b
        · exact Or.inl h2b
        · simp at h2b; subst h2b; exact Or.inr hx
      · exact Or.inr fun hv => h (List.mem_cons_of_mem _ hv)
    have skip : ∀ (b2 r2 : List SearchState),
        ((pickLoopAux fuel b2 r2 nb num vis res).1.map fingerprint).Nodup ∧
          (∀ s ∈ (pickLoopAux fuel b2 r2 nb num vis res).1,
            fingerprint s ∈ (pickLoopAux fuel b2 r2 nb num vis res).2) ∧
          (∀ f ∈ vis, f ∈ (pickLoopAux fuel b2 r2 nb num vis res).2) ∧
          (∀ s ∈ (pickLoopAux fuel b2 r2 nb num vis res).1,
            s ∈ res ∨ fingerprint s ∉ vis) :=
      fun b2 r2 => pickLoopAux_dedup fuel b2 r2 nb num vis res hres hmem
    have stay : ((res.map fingerprint).Nodup ∧
        (∀ s ∈ res, fingerprint s ∈ vis) ∧
        (∀ f ∈ vis, f ∈ vis) ∧
        (∀ s ∈ res, s ∈ res ∨ fingerprint s ∉ vis)) :=
      ⟨hres, hmem, fun f hf => hf, fun s hs => Or.inl hs⟩
    by_cases hnum : res.length < num
    · match bests, randoms with
      | [], [] => simpa only [pickLoopAux, if_pos hnum] using stay
      | [], r :: rs2 =>
        by_cases hv : fingerprint r ∈ vis
        · rw [show pickLoopAux (fuel + 1) [] (r :: rs2) nb num vis res =
              pickLoopAux fuel [] rs2 nb num vis res by
            simp [pickLoopAux, hnum, hv]]
          exact skip [] rs2
        · rw [show pickLoopAux (fuel + 1) [] (r :: rs2) nb num vis res =
              pickLoopAux fuel [] rs2 nb num (fingerprint r :: vis)
                (res ++ [r]) by
            simp [pickLoopAux, hnum, hv]]
          exact keep r [] rs2 hv
      | b :: bs, rs =>
        by_cases hnb2 : res.length < nb
        · by_cases hv : fingerprint b ∈ vis
          · rw [show pickLoopAux (fuel + 1) (b :: bs) rs nb num vis res =
                pickLoopAux fuel bs rs nb num vis res by
              cases rs <;> simp [pickLoopAux, hnum, hnb2, hv]]
            exact skip bs rs
          · rw [show pickLoopAux (fuel + 1) (b :: bs) rs nb num vis res =
                pickLoopAux fuel bs rs nb num (fingerprint b :: vis)
                  (res ++ [b]) by
              cases rs <;> simp [pickLoopAux, hnum, hnb2, hv]]
            exact keep b bs rs hv
        · match rs with
          | r :: rs2 =>
            by_cases hv : fingerprint r ∈ vis
            · rw [show pickLoopAux (fuel + 1) (b :: bs) (r :: rs2) nb num vis
                  res = pickLoopAux fuel (b :: bs) rs2 nb num vis res by
                simp [pickLoopAux, hnum, hnb2, hv]]
              exact skip (b :: bs) rs2
            · rw [show pickLoopAux (fuel + 1) (b :: bs) (r :: rs2) nb num vis
                  res = pickLoopAux fuel (b :: bs) rs2 nb num
                    (fingerprint r :: vis) (res ++ [r]) by
                simp [pickLoopAux, hnum, hnb2, hv]]
              exact keep r (b :: bs) rs2 hv
          | [] =>
            by_cases hv : fingerprint b ∈ vis
            · rw [show pickLoopAux (fuel + 1) (b :: bs) [] nb num vis res =
                  pickLoopAux fuel bs [] nb num vis res by
                simp [pickLoopAux, hnum, hnb2, hv]]
              exact skip bs []
            · rw [show pickLoopAux (fuel + 1) (b :: bs) [] nb num vis res =
                  pickLoopAux fuel bs [] nb num (fingerprint b :: vis)
                    (res ++ [b]) by
                simp [pickLoopAux, hnum, hnb2, hv]]
              exact keep b bs [] hv
    · simpa only [pickLoopAux, if_neg hnum] using stay

/-- On a supply of pairwise-distinct, not-yet-visited candidates,
`takeUnvisited` is plain take-and-drop, and it records exactly the taken
fingerprints. -/
lemma takeUnvisited_fresh : ∀ (vis : List (List Expr)) (want : Nat)
    (supply : List SearchState),
    (supply.map fingerprint).Nodup → (∀ s ∈ supply, fingerprint s ∉ vis) →
    takeUnvisited vis want supply =
      (supply.take want,
        ((supply.take want).map fingerprint).reverse ++ vis,
        supply.drop want)
  | vis, want, [], _, _ => by simp [takeUnvisited_nil]
  | vis, 0, x :: xs, _, _ => by simp [takeUnvisited_zero]
  | vis, w + 1, x :: xs, hnodup, hfresh => by
    have hv : fingerprint x ∉ vis := hfresh x (List.mem_cons_self _ _)
    rw [List.map_cons, List.nodup_cons] at hnodup
    have hxnotin : fingerprint x ∉ xs.map fingerprint := hnodup.1
    have ih := takeUnvisited_fresh (fingerprint x :: vis) w xs hnodup.2
      (by
        intro s hs
        simp only [List.mem_cons]
        rintro (h | h)
        · exact hxnotin (h ▸ List.mem_map_of_mem fingerprint hs)
        · exact hfresh s (List.mem_cons_of_mem _ hs) h)
    simp only [takeUnvisited, if_neg hv, ih, List.take_succ_cons,
      List.drop_succ_cons, List.map_cons, List.reverse_cons,
      List.append_assoc, List.singleton_append]

/-- `GetTopKCandidatesFromDatabase` wraps one state per record. -/
lemma replayRecords_length (env : SearchEnv) (task : String) :
    ∀ (records : List DbRecord) (s : Nat),
      (replayRecords env task records s).1.length = records.length
  | [], _ => rfl
  | _ :: rs, s => by
    simp [replayRecords, replayRecords_length env task rs]

/-- Deduplication facts about one `PickNextGenerationEpsGreedy` call. -/
lemma pick_dedup (vis : List (List Expr)) (bests randoms : List SearchState)
    (num : Nat) (eps : ℚ) :
    ((PickNextGenerationEpsGreedy vis bests randoms num eps).1.map
      fingerprint).Nodup ∧
    (∀ s ∈ (PickNextGenerationEpsGreedy vis bests randoms num eps).1,
      fingerprint s ∈ (PickNextGenerationEpsGreedy vis bests randoms num eps).2) ∧
    (∀ f ∈ vis,
      f ∈ (PickNextGenerationEpsGreedy vis bests randoms num eps).2) ∧
    (∀ s ∈ (PickNextGenerationEpsGreedy vis bests randoms num eps).1,
      fingerprint s ∉ vis) := by
  have pd := pickLoopAux_dedup (bests.length + randoms.length) bests randoms
    (num - (⌊(num : ℚ) * eps⌋).toNat) num vis [] (by simp) (by simp)
  simp only [PickNextGenerationEpsGreedy]
  exact ⟨pd.1, pd.2.1, pd.2.2.1,
    fun s hs => (pd.2.2.2 s hs).resolve_left (List.not_mem_nil s)⟩

/-- Deduplication across a whole sequence of rounds with a persistent
visited set. -/
lemma runPickRounds_dedup : ∀ (rounds : List RoundInput)
    (vis : List (List Expr)),
    (((runPickRounds rounds vis).1.flatten).map fingerprint).Nodup ∧
      (∀ s ∈ (runPickRounds rounds vis).1.flatten,
        fingerprint s ∈ (runPickRounds rounds vis).2) ∧
      (∀ f ∈ vis, f ∈ (runPickRounds rounds vis).2) ∧
      (∀ s ∈ (runPickRounds rounds vis).1.flatten, fingerprint s ∉ vis)
  | [], vis => by simp [runPickRounds]
  | r :: rs, vis => by
    have pd := pick_dedup vis r.bests r.randoms r.num r.eps
    have ih := runPickRounds_dedup rs
      (PickNextGenerationEpsGreedy vis r.bests r.randoms r.num r.eps).2
    simp only [runPickRounds, List.flatten_cons, List.map_append]
    refine ⟨?_, ?_, ?_, ?_⟩
    · refine List.Nodup.append pd.1 ih.1 ?_
      intro f hf1 hf2
      obtain ⟨s, hs, hfs⟩ := List.mem_map.mp hf1
      obtain ⟨t, ht, hft⟩ := List.mem_map.mp hf2
      exact ih.2.2.2 t ht (hft ▸ hfs ▸ pd.2.1 s hs)
    · intro s hs
      rcases List.mem_append.mp hs with h | h
      · exact ih.2.2.1 _ (pd.2.1 s h)
      · exact ih.2.1 s h
    · intro f hf
      exact ih.2.2.1 f (pd.2.2.1 f hf)
    · intro s hs
      rcases List.mem_append.mp hs with h | h
      · exact pd.2.2.2 s h
      · exact fun hv => ih.2.2.2 s h (pd.2.2.1 _ hv)

/-! ## Claim C2 — the epsilon-greedy slot layout -/

/-- C2: for a budget `num` and `eps_greedy ∈ [0,1]`, the pick reserves
`num_rand = ⌊num·eps_greedy⌋` slots for random candidates and
`num_best = num − num_rand` for bests, draws the first `num_best` kept slots
from `bests` in order and the remainder from `randoms` in order, and when
either supply runs out fills the remaining slots from the other supply —
i.e. the returned list is exactly the three-phase slot filling
`pickSpecPhases`. -/
theorem pick_eps_greedy_slot_layout (vis : List (List Expr))
    (bests randoms : List SearchState) (num : Nat) (eps : ℚ)
    (_h0 : 0 ≤ eps) (_h1 : eps ≤ 1) :
    (PickNextGenerationEpsGreedy vis bests randoms num eps).1 =
      pickSpecPhases vis bests randoms num
        (num - (⌊(num : ℚ) * eps⌋).toNat) := by
  simp only [PickNextGenerationEpsGreedy]
  rw [pickLoopAux_eq_phases _ _ _ _ _ _ _ le_rfl (Nat.sub_le _ _)]
  simp [pickPhases, pickSpecPhases]

/-- C2, witness at concrete inputs. -/
theorem pick_eps_greedy_slot_layout_witness :
    (PickNextGenerationEpsGreedy [] [⟨[1], 0, 0⟩] [⟨[2], 0, 0⟩] 2 (1/2)).1 =
      pickSpecPhases [] [⟨[1], 0, 0⟩] [⟨[2], 0, 0⟩] 2
        (2 - (⌊(2 : ℚ) * (1/2)⌋).toNat) :=
  pick_eps_greedy_slot_layout [] [⟨[1], 0, 0⟩] [⟨[2], 0, 0⟩] 2 (1/2)
    (by norm_num) (by norm_num)

/-! ## Claim C3 — cross-round deduplication -/

/-- C3: across any sequence of rounds with the persistent
`visited_candidates_` set (empty at construction), no two states ever
returned share an IR fingerprint, and every returned state is recorded in
the visited set. -/
theorem epsGreedy_rounds_no_duplicate_fingerprints (rounds : List RoundInput) :
    (((runPickRounds rounds []).1.flatten).map fingerprint).Nodup ∧
      ∀ s ∈ (runPickRounds rounds []).1.flatten,
        fingerprint s ∈ (runPickRounds rounds []).2 :=
  ⟨(runPickRounds_dedup rounds []).1, (runPickRounds_dedup rounds []).2.1⟩

/-! ## Claim C4 — size of the returned list -/

/-- C4, counterexample: with a candidate already in `visited_candidates_`,
the returned list is shorter than `min(num, |bests| + |randoms|)` — the
claimed size law does not hold unconditionally. -/
theorem pick_length_not_min_with_visited :
    ((PickNextGenerationEpsGreedy [[5]] [⟨[5], 0, 0⟩] [] 1 0).1).length ≠
      min 1 (([⟨[5], 0, 0⟩] : List SearchState).length +
        ([] : List SearchState).length) := by
  simp only [PickNextGenerationEpsGreedy]
  norm_num
  decide

/-- C4, amended: the size law `|result| = min(num, |bests| + |randoms|)`
holds provided the candidates are pairwise distinct by fingerprint and none
of them is already in the visited set (deduplication otherwise shrinks the
result). -/
theorem pick_length_min_of_fresh_candidates (vis : List (List Expr))
    (bests randoms : List SearchState) (num : Nat) (eps : ℚ)
    (_h0 : 0 ≤ eps) (_h1 : eps ≤ 1)
    (hnodup : ((bests ++ randoms).map fingerprint).Nodup)
    (hfresh : ∀ s ∈ bests ++ randoms, fingerprint s ∉ vis) :
    ((PickNextGenerationEpsGreedy vis bests randoms num eps).1).length =
      min num (bests.length + randoms.length) := by
  rw [List.map_append] at hnodup
  obtain ⟨hbn, hrn, hdisj⟩ := List.nodup_append.mp hnodup
  have hbfresh : ∀ s ∈ bests, fingerprint s ∉ vis :=
    fun s hs => hfresh s (List.mem_append_left _ hs)
  have hrfresh0 : ∀ s ∈ randoms, fingerprint s ∉ vis :=
    fun s hs => hfresh s (List.mem_append_right _ hs)
  simp only [PickNextGenerationEpsGreedy]
  rw [pickLoopAux_eq_phases _ _ _ _ _ _ _ le_rfl (Nat.sub_le _ _)]
  have hnb : num - (⌊(num : ℚ) * eps⌋).toNat ≤ num := Nat.sub_le _ _
  set nb := num - (⌊(num : ℚ) * eps⌋).toNat with hnbdef
  simp only [pickPhases, List.length_nil, Nat.sub_zero, List.nil_append]
  rw [takeUnvisited_fresh vis nb bests hbn hbfresh]
  simp only []
  have hrfresh : ∀ s ∈ randoms,
      fingerprint s ∉ ((bests.take nb).map fingerprint).reverse ++ vis := by
    intro s hs hmem
    rcases List.mem_append.mp hmem with h | h
    · rw [List.mem_reverse] at h
      obtain ⟨t, ht, hts⟩ := List.mem_map.mp h
      exact hdisj (hts ▸ List.mem_map_of_mem fingerprint
        (List.take_subset nb bests ht)) (List.mem_map_of_mem fingerprint hs)
    · exact hrfresh0 s hs h
  rw [takeUnvisited_fresh _ _ randoms hrn hrfresh]
  simp only []
  have hdn : ((bests.drop nb).map fingerprint).Nodup :=
    List.Nodup.sublist (List.Sublist.map fingerprint (List.drop_sublist nb bests)) hbn
  have htd : ((bests.take nb).map fingerprint ++
      (bests.drop nb).map fingerprint).Nodup := by
    rw [← List.map_append, List.take_append_drop]; exact hbn
  obtain ⟨-, -, hdisj2⟩ := List.nodup_append.mp htd
  have hdfresh : ∀ s ∈ bests.drop nb,
      fingerprint s ∉
        ((randoms.take (num - (bests.take nb).length)).map
          fingerprint).reverse ++
          (((bests.take nb).map fingerprint).reverse ++ vis) := by
    intro s hs hmem
    have hsb : s ∈ bests := List.drop_subset nb bests hs
    rcases List.mem_append.mp hmem with h | h
    · rw [List.mem_reverse] at h
      obtain ⟨t, ht, hts⟩ := List.mem_map.mp h
      exact hdisj (List.mem_map_of_mem fingerprint hsb)
        (hts ▸ List.mem_map_of_mem fingerprint (List.take_subset _ randoms ht))
    · rcases List.mem_append.mp h with h2 | h2
      · rw [List.mem_reverse] at h2
        exact hdisj2 h2 (List.mem_map_of_mem fingerprint hs)
      · exact hbfresh s hsb h2
  rw [takeUnvisited_fresh _ _ (bests.drop nb) hdn hdfresh]
  simp only [List.length_append, List.length_take, List.length_drop]
  omega

/-- C4, witness for the amended theorem at concrete inputs. -/
theorem pick_length_min_of_fresh_candidates_witness :
    ((PickNextGenerationEpsGreedy [] [⟨[1], 0, 0⟩] [⟨[2], 0, 0⟩] 1 0).1).length =
      min 1 (([⟨[1], 0, 0⟩] : List SearchState).length +
        ([⟨[2], 0, 0⟩] : List SearchState).length) :=
  pick_length_min_of_fresh_candidates [] [⟨[1], 0, 0⟩] [⟨[2], 0, 0⟩] 1 0
    (by norm_num) (by norm_num) (by decide) (by simp)

/-! ## Claim C9 — determinism of the epsilon-greedy search -/

/-- C9: for a fixed environment (task registry, database snapshot, search
space, cost model), two instances with the same task key, the same engine
state and the same visited set produce identical
`SearchModuleExprEpsGreedy` results — every stochastic draw goes through the
explicitly threaded engine state, so the search is a function of its declared
inputs. -/
theorem search_eps_greedy_deterministic (env : SearchEnv)
    (opts : TuningOptions) (e1 e2 : EvoState) (fuel : Nat)
    (htask : e1.task = e2.task) (hseed : e1.randSeed = e2.randSeed)
    (hvis : e1.visited = e2.visited) :
    SearchModuleExprEpsGreedy env opts e1 fuel =
      SearchModuleExprEpsGreedy env opts e2 fuel := by
  cases e1
  cases e2
  simp only [] at htask hseed hvis
  subst htask; subst hseed; subst hvis
  rfl

/-- C9, witness: two identical freshly seeded instances. -/
theorem search_eps_greedy_deterministic_witness :
    SearchModuleExprEpsGreedy trivialEnv ⟨0, 4, 0, 3, 0⟩ ⟨"t", 7, []⟩ 5 =
      SearchModuleExprEpsGreedy trivialEnv ⟨0, 4, 0, 3, 0⟩ ⟨"t", 7, []⟩ 5 :=
  search_eps_greedy_deterministic trivialEnv ⟨0, 4, 0, 3, 0⟩ ⟨"t", 7, []⟩
    ⟨"t", 7, []⟩ 5 rfl rfl rfl

/-! ## Claim C10 — SearchModuleExpr indexes the bests list -/

/-- C10: `SearchModuleExpr` returns exactly element `[0]` of the list
produced by `SearchModuleExprBests` (well-defined only when that list is
non-empty), and with an empty initial population (`GetTopK` and the sketch
generator both empty) `SearchModuleExprBests` returns the empty vector, so
the indexing is out of bounds (`none`). -/
theorem searchModuleExpr_head_of_bests :
    (∀ (env : SearchEnv) (opts : TuningOptions) (task : String)
        (s fuel : Nat) (bests : List SearchState) (s2 : Nat),
      SearchModuleExprBests env opts task s fuel = some (bests, s2) →
      SearchModuleExpr env opts task s fuel =
        bests.head?.map (fun b => (b, s2))) ∧
    (∀ (env : SearchEnv) (opts : TuningOptions) (task : String)
        (s fuel : Nat),
      env.getTopK task opts.evolution_pick_database_topk = [] →
      env.generateSketches opts.evolution_init_population_num "rule_prune" = [] →
      SearchModuleExprBests env opts task s fuel = some ([], s) ∧
      SearchModuleExpr env opts task s fuel = none) := by
  constructor
  · intro env opts task s fuel bests s2 h
    cases bests <;> simp [SearchModuleExpr, h]
  · intro env opts task s fuel hdb hsk
    have hbests : SearchModuleExprBests env opts task s fuel = some ([], s) := by
      simp [SearchModuleExprBests, GetTopKCandidatesFromDatabase, hdb,
        replayRecords, hsk, Evolve]
    exact ⟨hbests, by simp [SearchModuleExpr, hbests]⟩

/-- C10, witness: the empty-population case at concrete inputs. -/
theorem searchModuleExpr_head_of_bests_witness :
    SearchModuleExprBests trivialEnv ⟨0, 4, 0, 3, 0⟩ "t" 5 2 = some ([], 5) ∧
      SearchModuleExpr trivialEnv ⟨0, 4, 0, 3, 0⟩ "t" 5 2 = none :=
  searchModuleExpr_head_of_bests.2 trivialEnv ⟨0, 4, 0, 3, 0⟩ "t" 5 2 rfl rfl

/-! ## Claim C1 — the crossover die -/

/-- C1, counterexample: the claim reads the crossover draw as "a 3-way
uniform die over `{0,1,2}` where only 0 selects the father", under which the
value `2` occurs with probability 1/3.  In fact `SampleUniformInt(0, 2)`
draws from the half-open interval `[0, 2)`, so the die never shows `2` at
all: `2` is not in the range of the die. -/
theorem crossOverDie_never_two : 2 ∉ Set.range crossOverDie := by
  rintro ⟨s, hs⟩
  have h := crossOverDie_lt_two s
  omega

/-- C1, amended: in `CrossOver`, for parents with equal top-level expression
counts, each position tosses a 2-way fair die over `{0,1}` (the value `2` of
the claimed 3-way die is impossible): the die is always `< 2`; over any
window of `2·n` consecutive raw engine outputs exactly `n` (one half, not
one third) map to the father-selecting value `0`; and the child's `i`-th
expression is a copy of the father's exactly when the `i`-th toss is `0`,
and of the mother's otherwise. -/
theorem crossOver_two_way_die :
    (∀ s, crossOverDie s < 2) ∧
    (∀ n : Nat,
      (List.range (2 * n)).countP (fun r => uniformIntOfOutput 0 2 r == 0) = n) ∧
    (∀ (f m : List Expr), f.length = m.length → ∀ (s i : Nat),
      (crossOverLoop f m s).1[i]? =
        if nthDraw s i = 0 then f[i]? else m[i]?) := by
  refine ⟨crossOverDie_lt_two, ?_, crossOverLoop_getElem⟩
  intro n
  induction n with
  | zero => simp
  | succ k ih =>
    have h2 : 2 * (k + 1) = (2 * k + 1) + 1 := by omega
    rw [h2, List.range_succ, List.range_succ, List.countP_append,
      List.countP_append, ih]
    have ha : uniformIntOfOutput 0 2 (2 * k) = 0 := by
      simp [uniformIntOfOutput, Nat.mul_mod_right]
    have hb : uniformIntOfOutput 0 2 (2 * k + 1) = 1 := by
      have : (2 * k + 1) % 2 = 1 := by omega
      simp [uniformIntOfOutput, this]
    simp [ha, hb]

/-- C1, witness for the amended theorem at concrete inputs. -/
theorem crossOver_two_way_die_witness :
    (crossOverLoop [10, 20] [30, 40] 7).1[0]? =
      if nthDraw 7 0 = 0 then ([10, 20] : List Expr)[0]?
      else ([30, 40] : List Expr)[0]? :=
  crossOver_two_way_die.2.2 [10, 20] [30, 40] rfl 7 0

/-! ## Claim C5 — termination of a search round -/

/-- C5: the claim (and the spec) say every round is finite, but `Evolve` on
a population of exactly one state with a positive `cross_over_num` never
returns: the second parent index must differ from the first, yet the only
index that `SampleUniformInt(0, 1)` can produce is `0`, so the resampling
loop runs forever (`none` for every fuel bound). -/
theorem evolve_singleton_population_diverges (env : SearchEnv)
    (st : SearchState) (crossNum retNum s fuel : Nat) (h : 0 < crossNum) :
    Evolve env [st] crossNum retNum s fuel = none := by
  obtain ⟨k, rfl⟩ : ∃ k, crossNum = k + 1 := ⟨crossNum - 1, by omega⟩
  simp only [Evolve, List.length_cons, List.length_nil]
  rw [if_neg (by omega)]
  have hfirst : (SampleUniformInt 0 1 s).1 = 0 := by
    simp [SampleUniformInt, uniformIntOfOutput, Nat.mod_one]
  simp only [evolveCrossLoop, Nat.zero_add, hfirst, sampleSecondIdx_zero_one]

/-- C5, witness at a concrete population, crossover count and fuel. -/
theorem evolve_singleton_population_diverges_witness :
    Evolve trivialEnv [⟨[1], 0, 0⟩] 1 4 7 100 = none :=
  evolve_singleton_population_diverges trivialEnv ⟨[1], 0, 0⟩ 1 4 7 100
    (by omega)

/-! ## Claim C6 — fail-fast on mismatched parents -/

/-- C6: `CrossOver` produces a child exactly when the two parents have the
same number of top-level module expressions; on mismatched counts the
`CHECK_EQ` fires (modelled by `none`) and no child is produced. -/
theorem crossOver_some_iff_equal_counts (s : Nat) (st1 st2 : SearchState) :
    (CrossOver s st1 st2).isSome = true ↔
      st1.exprs.length = st2.exprs.length := by
  unfold CrossOver
  split <;> simp_all

/-! ## Claim C7 — replay failures and warm starts -/

/-- C7, counterexample: the claim says a record whose trace fails to replay
is dropped from the warm-start list.  The loop in
`GetTopKCandidatesFromDatabase` wraps every record unconditionally — with a
database of one record whose replay fails, the returned list still has one
entry, not zero. -/
theorem replay_failures_not_dropped : ¬ replayFailuresAreDropped := by
  intro h
  have hx := h failingReplayEnv "t" 1 0
  simp [GetTopKCandidatesFromDatabase, failingReplayEnv, replayRecords,
    replayOk] at hx

/-- C7, amended: no record is ever dropped — `GetTopKCandidatesFromDatabase`
returns exactly one `SearchState` per database record, whatever the replay
outcome; there is no drop-with-warning path at this call site. -/
theorem getTopK_returns_all_records (env : SearchEnv) (task : String)
    (topk s : Nat) :
    (GetTopKCandidatesFromDatabase env task topk s).1.length =
      (env.getTopK task topk).length :=
  replayRecords_length env task (env.getTopK task topk) s

/-! ## Claim C8 — crossover leaves the parents untouched -/

/-- C8: `CrossOver` never consults (hence never advances) the parents' own
PRNG states or costs — its entire result is invariant under changing them —
and every expression of the child is a copy of an expression of one of the
two parents, while the child's own PRNG state is forked from the search
engine's state. -/
theorem crossOver_parent_isolation :
    (∀ (s : Nat) (e1 e2 : List Expr) (r1 c1 r2 c2 r1a c1a r2a c2a),
      CrossOver s ⟨e1, r1, c1⟩ ⟨e2, r2, c2⟩ =
        CrossOver s ⟨e1, r1a, c1a⟩ ⟨e2, r2a, c2a⟩) ∧
    (∀ (s : Nat) (st1 st2 : SearchState) (child : SearchState) (s2 : Nat),
      CrossOver s st1 st2 = some (child, s2) →
      child.randState = (ForkRandomState (crossOverLoop st1.exprs st2.exprs s).2).1 ∧
      ∀ e ∈ child.exprs, e ∈ st1.exprs ∨ e ∈ st2.exprs) := by
  constructor
  · intro s e1 e2 r1 c1 r2 c2 r1a c1a r2a c2a
    rfl
  · intro s st1 st2 child s2 h
    unfold CrossOver at h
    split at h
    · simp only [Option.some.injEq, Prod.mk.injEq] at h
      obtain ⟨hc, -⟩ := h
      subst hc
      exact ⟨rfl, fun e he => crossOverLoop_mem st1.exprs st2.exprs s e he⟩
    · exact absurd h (by simp)

/-- C8, witness: the second part applied to concrete parents. -/
theorem crossOver_parent_isolation_witness :
    (⟨[1], 0, 0⟩ : SearchState).randState =
      (ForkRandomState (crossOverLoop [1] [4] 0).2).1 ∧
    ∀ e ∈ (⟨[1], 0, 0⟩ : SearchState).exprs,
      e ∈ (⟨[1], 2, 3⟩ : SearchState).exprs ∨
      e ∈ (⟨[4], 5, 6⟩ : SearchState).exprs :=
  crossOver_parent_isolation.2 0 ⟨[1], 2, 3⟩ ⟨[4], 5, 6⟩ ⟨[1], 0, 0⟩ 0
    (by decide)

end CINN
